import Mathlib

/-!
Verification of the listing/query engine of `pacman-blame`.

The development shallowly embeds the four core components of the program:
the query parser (`src/query.rs`), the reason selector and required-by
resolver (`src/listing.rs`), and the format compiler/renderer
(`src/output.rs`), together with the listing orchestrator
(`list_packages` in `src/listing.rs`).

Modelling conventions:
* Package records (`alpm::Pkg`) are modelled as the record `PkgR`; the
  local package database is a finite list of records, with name lookup
  (`db.pkg(name)`) modelled by `dbPkg` (first record with that name).
* Rust `String`/`&str` values are modelled by `String` where only
  equality matters, and by their UTF-8 byte lists (`List Nat`) inside the
  format compiler, which indexes and slices the template by bytes.
  `utf8Bytes` is the UTF-8 encoding. A Rust byte-range slice of a string
  panics when an index is not a character boundary; the compiler model
  therefore returns a `COutcome` with an explicit `panicked` result.
* The `while` loops are translated to structurally recursive functions:
  the compiler loop consumes one byte of remaining input per iteration,
  and the breadth-first required-by loop takes explicit fuel, whose
  sufficiency is proved (`bfsLoop` never runs out on the fuel used by
  `find_required_by`).
-/

/-! ## Data model -/

/-- Install reason of a package (`alpm::PackageReason`). -/
inductive PackageReason
  | explicit
  | depend
deriving DecidableEq, Repr

/-- A package record: the fields of `alpm::Pkg` that the program reads.
`required_by` is the ordered list of names of packages that directly
depend on this one (`Pkg::required_by`). -/
structure PkgR where
  name : String
  version : String
  desc : Option String
  reason : PackageReason
  required_by : List String
deriving DecidableEq, Repr

/-- Name lookup in the local database: `db.pkg(name)` returns the record
with the given name, or an error when there is none. -/
def dbPkg (db : List PkgR) (name : String) : Option PkgR :=
  db.find? (fun p => p.name == name)

/-! ## Query parser (`src/query.rs`) -/

/-- `query::ParseError`. -/
inductive ParseError
  | invalidProperty (prop : String)
  | syntaxError
deriving DecidableEq, Repr

/-- `query::Query`. -/
inductive Query
  | packageName (name : String)
deriving DecidableEq, Repr

/-- Rust `str::split_once(":")`: split at the first colon only. -/
def splitOnceColon : List Char → Option (List Char × List Char)
  | [] => none
  | c :: cs =>
    if c = ':' then some ([], cs)
    else
      match splitOnceColon cs with
      | none => none
      | some (a, b) => some (c :: a, b)

/-- Rust `char::is_whitespace`: the Unicode White_Space code points. -/
def rustIsWhitespace (c : Char) : Bool :=
  c.toNat ∈ [0x09, 0x0A, 0x0B, 0x0C, 0x0D, 0x20, 0x85, 0xA0, 0x1680,
    0x2000, 0x2001, 0x2002, 0x2003, 0x2004, 0x2005, 0x2006, 0x2007,
    0x2008, 0x2009, 0x200A, 0x2028, 0x2029, 0x202F, 0x205F, 0x3000]

/-- Rust `str::trim`: drop whitespace from both ends. -/
def rustTrim (s : List Char) : List Char :=
  ((s.dropWhile rustIsWhitespace).reverse.dropWhile rustIsWhitespace).reverse

/-- `Query::parse` (src/query.rs lines 28-41). -/
def Query.parse (query : String) : Except ParseError Query :=
  match splitOnceColon query.data with
  | none => Except.ok (Query.packageName query)
  | some (prop, value) =>
    if prop = "package".data then Except.ok (Query.packageName (String.mk value))
    else if rustTrim prop ≠ prop then Except.error ParseError.syntaxError
    else Except.error (ParseError.invalidProperty (String.mk prop))

/-! ## Reason selector (`src/listing.rs` lines 9-41) -/

/-- `listing::ReasonSelector`. -/
inductive ReasonSelector
  | both
  | explicit
  | depend
deriving DecidableEq, Repr

/-- `ReasonSelector::filter`. -/
def ReasonSelector.filter : ReasonSelector → PackageReason → Option PackageReason
  | ReasonSelector.both, reason => some reason
  | ReasonSelector.explicit, PackageReason.explicit => some PackageReason.explicit
  | ReasonSelector.depend, PackageReason.depend => some PackageReason.depend
  | _, _ => none

/-- `listing::ReqByItem`. -/
inductive ReqByItem
  | explicit (name : String)
  | depend (name : String)
deriving DecidableEq, Repr

/-- The `Reason` trait method `is_explicit`, as implemented for `ReqByItem`. -/
def ReqByItem.is_explicit : ReqByItem → Bool
  | ReqByItem.explicit _ => true
  | ReqByItem.depend _ => false

/-- `ReasonSelector::test`. -/
def ReasonSelector.test (s : ReasonSelector) (r : ReqByItem) : Bool :=
  decide (s = ReasonSelector.both) ||
    (decide (s = ReasonSelector.explicit) == r.is_explicit)

/-- `ReasonSelector::new`. -/
def ReasonSelector.new (explicit dependency : Bool) : ReasonSelector :=
  match explicit, dependency with
  | true, false => ReasonSelector.explicit
  | false, true => ReasonSelector.depend
  | _, _ => ReasonSelector.both

/-- The package name carried by a `ReqByItem`. -/
def itemName : ReqByItem → String
  | ReqByItem.explicit n => n
  | ReqByItem.depend n => n

/-! ## Format compiler and renderer (`src/output.rs`) -/

/-- UTF-8 encoding of one character. -/
def utf8Char (c : Char) : List Nat :=
  let n := c.toNat
  if n < 0x80 then [n]
  else if n < 0x800 then [0xC0 + n / 0x40, 0x80 + n % 0x40]
  else if n < 0x10000 then
    [0xE0 + n / 0x1000, 0x80 + n / 0x40 % 0x40, 0x80 + n % 0x40]
  else
    [0xF0 + n / 0x40000, 0x80 + n / 0x1000 % 0x40,
      0x80 + n / 0x40 % 0x40, 0x80 + n % 0x40]

/-- UTF-8 byte list of a string, as Rust byte-indexes `&str` values. -/
def utf8Bytes (s : String) : List Nat :=
  (s.data.map utf8Char).flatten

/-- `output::Format`: one compiled op. The literal text is kept as the
bytes of the matched slice (the compiled format owns a copy). -/
inductive FormatOp
  | text (s : List Nat)
  | name
  | summary
  | reason
  | version
deriving DecidableEq, Repr

/-- `output::ParseStatus`. -/
inductive ParseStatus
  | invalid
  | needMore
  | correct (f : FormatOp)
deriving DecidableEq, Repr

/-- `Format::parse_token_slice` (src/output.rs lines 19-39), on the bytes
of the candidate slice.  Byte 37 is `%`, 110 `n`, 115 `s`, 114 `r`,
118 `v`, 123 is an opening brace, 125 a closing brace. -/
def parse_token_slice (tokens : List Nat) : ParseStatus :=
  if tokens = [] then ParseStatus.needMore
  else if tokens = [37] then ParseStatus.needMore
  else if tokens = [37, 37] then ParseStatus.correct (FormatOp.text [37])
  else if tokens = [37, 110] ∨ tokens = [37, 123, 110, 125] then ParseStatus.correct FormatOp.name
  else if tokens = [37, 115] ∨ tokens = [37, 123, 115, 125] then ParseStatus.correct FormatOp.summary
  else if tokens = [37, 114] ∨ tokens = [37, 123, 114, 125] then ParseStatus.correct FormatOp.reason
  else if tokens = [37, 118] ∨ tokens = [37, 123, 118, 125] then ParseStatus.correct FormatOp.version
  else if tokens = [37, 123] then ParseStatus.needMore
  else if [37, 123].isPrefixOf tokens then
    (if [125].isSuffixOf tokens then ParseStatus.invalid else ParseStatus.needMore)
  else if [37].isPrefixOf tokens then ParseStatus.invalid
  else ParseStatus.correct (FormatOp.text tokens)

/-- Rust `str::is_char_boundary` on a UTF-8 byte list: index 0 and the
length are boundaries; otherwise the byte at the index must not be a
continuation byte (`128 ≤ b < 192`). -/
def isBoundaryB (t : List Nat) (i : Nat) : Bool :=
  if i = 0 then true
  else if i = t.length then true
  else
    match t.get? i with
    | some b => decide (b < 128) || decide (192 ≤ b)
    | none => false

/-- Result of running `CompiledFormat::compile`: the Rust function either
panics (byte-range slice not on a character boundary), returns `None`, or
returns `Some` compiled op list. -/
inductive COutcome
  | panicked
  | failed
  | ok (ops : List FormatOp)
deriving DecidableEq, Repr

/-- The scanning loop of `CompiledFormat::compile` (src/output.rs lines
49-67), with the loop state `(start, end)` represented positionally:
`consumed` is `text[..start]`, `chunk` is `text[start..end]` and `rest`
is `text[end..]`.  Each iteration slices `text[start..end]` (which
panics off a character boundary), classifies the slice, and either grows
the window by one byte (`NeedMore`), aborts (`Invalid`, or `NeedMore`
with `end` already past the input), or commits the op and restarts the
window after it. -/
def compileLoop (consumed chunk : List Nat) (parts : List FormatOp) : List Nat → COutcome
  | [] =>
    if chunk = [] then COutcome.ok parts
    else if !(isBoundaryB (consumed ++ chunk) consumed.length &&
        isBoundaryB (consumed ++ chunk) (consumed.length + chunk.length)) then
      COutcome.panicked
    else
      match parse_token_slice chunk with
      | ParseStatus.needMore => COutcome.failed
      | ParseStatus.invalid => COutcome.failed
      | ParseStatus.correct f => COutcome.ok (parts ++ [f])
  | b :: rest =>
    if !(isBoundaryB (consumed ++ chunk ++ b :: rest) consumed.length &&
        isBoundaryB (consumed ++ chunk ++ b :: rest) (consumed.length + chunk.length)) then
      COutcome.panicked
    else
      match parse_token_slice chunk with
      | ParseStatus.needMore => compileLoop consumed (chunk ++ [b]) parts rest
      | ParseStatus.invalid => COutcome.failed
      | ParseStatus.correct f => compileLoop (consumed ++ chunk) [b] (parts ++ [f]) rest

/-- `CompiledFormat::compile` (src/output.rs lines 45-69) on the UTF-8
bytes of the template: `start = end = 0`, no parts committed. -/
def compileB (t : List Nat) : COutcome :=
  compileLoop [] [] [] t

/-- `CompiledFormat::default()`: a single `Name` op. -/
def defaultFormat : List FormatOp := [FormatOp.name]

/-- `CompiledFormat::display` (src/output.rs lines 71-84): fold over the
ops, appending the rendering of each to the output. -/
def displayB (ops : List FormatOp) (pkg : PkgR) : List Nat :=
  ops.foldl
    (fun output part =>
      match part with
      | FormatOp.text s => output ++ s
      | FormatOp.name => output ++ utf8Bytes pkg.name
      | FormatOp.summary =>
        output ++ (match pkg.desc with
          | some d => utf8Bytes d
          | none => utf8Bytes "")
      | FormatOp.reason =>
        match pkg.reason with
        | PackageReason.explicit => output ++ utf8Bytes "Explicit"
        | PackageReason.depend => output ++ utf8Bytes "Depend"
      | FormatOp.version => output ++ utf8Bytes pkg.version)
    []

/-- Rendering of a single op (used to state how `display` walks the op
sequence). -/
def renderOp (pkg : PkgR) : FormatOp → List Nat
  | FormatOp.text s => s
  | FormatOp.name => utf8Bytes pkg.name
  | FormatOp.summary =>
    match pkg.desc with
    | some d => utf8Bytes d
    | none => utf8Bytes ""
  | FormatOp.reason =>
    match pkg.reason with
    | PackageReason.explicit => utf8Bytes "Explicit"
    | PackageReason.depend => utf8Bytes "Depend"
  | FormatOp.version => utf8Bytes pkg.version

/-- All bytes below 128: the byte list of an ASCII-only string. -/
def asciiB (t : List Nat) : Prop := ∀ b ∈ t, b < 128

/-- Decomposition of a template into the units the specification
recognizes: literal non-`%` bytes, `%%`, the four shorthand directives
and the four braced directives.  A template compiles exactly when it is
such a concatenation; a `%` that begins none of the nine forms (or an
unterminated `%` or brace directive at end of input) falls to the
`37 :: _` case and makes the template bad. -/
def specRunB : List Nat → Bool
  | [] => true
  | b :: r =>
    if b ≠ 37 then specRunB r
    else
      match r with
      | [] => false
      | c :: r' =>
        if c = 37 ∨ c = 110 ∨ c = 115 ∨ c = 114 ∨ c = 118 then specRunB r'
        else if c = 123 then
          match r' with
          | d :: e :: r'' =>
            if (d = 110 ∨ d = 115 ∨ d = 114 ∨ d = 118) ∧ e = 125 then specRunB r''
            else false
          | _ => false
        else false

/-! ## Required-by resolver (`src/listing.rs` lines 43-94) -/

/-- `ReqByItem::draw`: yellow ANSI highlight for an explicit item when
color is on, otherwise just the name (as output bytes). -/
def ReqByItem.draw (r : ReqByItem) (color : Bool) : List Nat :=
  match r with
  | ReqByItem.explicit name =>
    if color then utf8Bytes "\x1b[33m" ++ utf8Bytes name ++ utf8Bytes "\x1b[m"
    else utf8Bytes name
  | ReqByItem.depend name => utf8Bytes name

/-- The `ReqByItem` built from a looked-up dependent (src/listing.rs
lines 78-82). -/
def reqItemOf (reason : PackageReason) (name : String) : ReqByItem :=
  match reason with
  | PackageReason.explicit => ReqByItem.explicit name
  | PackageReason.depend => ReqByItem.depend name

/-- Body of the `for name in reqby` loop of `find_required_by`
(src/listing.rs lines 72-90), acting on the state
`(required_by, queue after the pop)`: a failed lookup is reported and
skipped; an item already present is skipped; otherwise the item is
appended and the looked-up record enqueued. -/
def stepName (db : List PkgR) (st : List ReqByItem × List PkgR) (name : String) :
    List ReqByItem × List PkgR :=
  match dbPkg db name with
  | none => st
  | some pkg =>
    let req := reqItemOf pkg.reason name
    if req ∈ st.1 then st
    else (st.1 ++ [req], st.2 ++ [pkg])

/-- The `while !queue.is_empty()` loop of `find_required_by`
(src/listing.rs lines 68-91), with explicit fuel: pop the front record,
process each of its `required_by` names, and continue.  `none` means the
fuel ran out (proved impossible for the fuel used below). -/
def bfsLoop (db : List PkgR) : Nat → List PkgR → List ReqByItem → Option (List ReqByItem)
  | _, [], acc => some acc
  | 0, _ :: _, _ => none
  | fuel + 1, next :: queue, acc =>
    let st := next.required_by.foldl (stepName db) (acc, queue)
    bfsLoop db fuel st.2 st.1

/-- Fuel that always suffices for `bfsLoop` (proved below): the loop can
run at most one iteration per queue entry, and entries beyond the seed
are only enqueued together with a fresh name from the database. -/
def requiredByFuel (db : List PkgR) : Nat := 2 * db.length + 1

/-- `find_required_by` (src/listing.rs lines 64-94): run the traversal
seeded with the target record, then filter the accumulated list with
`ReasonSelector::test`, preserving order. -/
def find_required_by (db : List PkgR) (pkg : PkgR) (reason_filter : ReasonSelector) :
    Option (List ReqByItem) :=
  (bfsLoop db (requiredByFuel db) [pkg] []).map
    (fun l => l.filter (fun r => reason_filter.test r))

/-! ## Listing orchestrator (`src/listing.rs` lines 96-159) -/

/-- `argparse::ApiList`. -/
structure ListOptions where
  queries : List String
  explicit : Bool
  dependency : Bool
  required_by : Bool
deriving DecidableEq, Repr

/-- `argparse::CommonOptions` (the fields `list_packages` reads). -/
structure CommonOptions where
  verbose : Bool
  color : Bool
  format : Option String
deriving DecidableEq, Repr

/-- `ProgramError` (src/main.rs lines 12-18). -/
inductive ProgramError
  | noPackagesFound
  | invalidFormat (format : String)
  | invalidRequest (msg : String)
  | invalidQuery (pe : ParseError)
deriving DecidableEq, Repr

/-- `queries.into_iter().map(Query::parse).collect::<Result<_, _>>()`:
parse every raw query, failing fast at the first parse error. -/
def sequenceParse : List String → Except ParseError (List Query)
  | [] => Except.ok []
  | s :: ss =>
    match Query.parse s with
    | Except.error e => Except.error e
    | Except.ok q =>
      match sequenceParse ss with
      | Except.error e => Except.error e
      | Except.ok qs => Except.ok (q :: qs)

/-- `list_packages` (src/listing.rs lines 96-159).  The result is the
list of output lines (as byte lists) or the propagated `ProgramError`;
the outer `none` is the process aborting because the format compiler
panicked.  The fuel fallback `getD []` in the required-by branch is dead
code: `bfsLoop` is proved never to return `none` on `requiredByFuel`. -/
def list_packages (db : List PkgR) (lo : ListOptions) (co : CommonOptions) :
    Option (Except ProgramError (List (List Nat))) :=
  let compiled :=
    match co.format with
    | some f =>
      match compileB (utf8Bytes f) with
      | COutcome.panicked => none
      | COutcome.failed => some (Except.error (ProgramError.invalidFormat f))
      | COutcome.ok ops => some (Except.ok ops)
    | none => some (Except.ok defaultFormat)
  match compiled with
  | none => none
  | some (Except.error e) => some (Except.error e)
  | some (Except.ok compiled_format) =>
    if lo.queries.length = 0 ∧ lo.required_by = true then
      some (Except.error (ProgramError.invalidRequest
        "you cannot use --required-by without specifying packages"))
    else
      let filter := ReasonSelector.new lo.explicit lo.dependency
      match sequenceParse lo.queries with
      | Except.error pe => some (Except.error (ProgramError.invalidQuery pe))
      | Except.ok queries =>
        let pkgs : List PkgR :=
          if queries.isEmpty then db
          else
            queries.filterMap (fun q =>
              match q with
              | Query.packageName name => dbPkg db name)
        if pkgs.isEmpty then some (Except.error ProgramError.noPackagesFound)
        else
          let lines := pkgs.foldl
            (fun lines pkg =>
              if lo.required_by then
                let reqby := ((find_required_by db pkg filter).getD []).map
                  (fun r => r.draw co.color)
                if reqby.isEmpty then lines
                else lines ++ [List.intercalate (utf8Bytes " ") reqby]
              else
                match filter.filter pkg.reason with
                | some _ => lines ++ [displayB compiled_format pkg]
                | none => lines)
            []
          some (Except.ok lines)

/-! ## Concrete fixtures used by the claim instances -/

/-- Package `A`, explicitly installed, directly depended on by `B`. -/
def pkgA : PkgR := ⟨"A", "1.0", none, PackageReason.explicit, ["B"]⟩

/-- Package `B`, installed as a dependency, directly depended on by `A`:
together with `pkgA` this makes a cyclic reverse-dependency graph. -/
def pkgB : PkgR := ⟨"B", "1.0", none, PackageReason.depend, ["A"]⟩

/-- The two-package cyclic database. -/
def dbAB : List PkgR := [pkgA, pkgB]

/-- An installed package named `real-pkg`. -/
def realPkg : PkgR := ⟨"real-pkg", "1.0", none, PackageReason.explicit, []⟩

/-- A record with name `foo` and version `1.0`, for the display instance. -/
def fooPkg : PkgR := ⟨"foo", "1.0", some "a summary", PackageReason.depend, []⟩

/-! ## Predicates about the traversal, used by the claims -/

/-- The distinct package names present in the database. -/
def dbNames (db : List PkgR) : List String :=
  (db.map (fun p => p.name)).dedup

/-- The names of the accumulated required-by items, in discovery order. -/
def accNames (acc : List ReqByItem) : List String :=
  acc.map itemName

/-- How many database names are not yet among the accumulated items:
the part of the termination measure that every enqueue decreases. -/
def missingCount (db : List PkgR) (acc : List ReqByItem) : Nat :=
  ((dbNames db).filter (fun n => !(acc.any (fun r => itemName r == n)))).length

/-- Every accumulated item was built by `stepName` from a successful
lookup of its own name. -/
def accOk (db : List PkgR) (acc : List ReqByItem) : Prop :=
  ∀ r ∈ acc, ∃ p, dbPkg db (itemName r) = some p ∧ r = reqItemOf p.reason (itemName r)

/-- One step of the reverse-dependency relation: `q` is a record the
traversal reaches from `p`, i.e. some name in `p.required_by` looks up
to `q`. -/
def StepRel (db : List PkgR) (p q : PkgR) : Prop :=
  ∃ n, n ∈ p.required_by ∧ dbPkg db n = some q

/-- A chain of direct-dependent names starting from `pkg` leads back to
`pkg`'s own name (and that name looks up successfully, so the traversal
can turn it into an item). -/
def CycleBack (db : List PkgR) (pkg : PkgR) : Prop :=
  ∃ p, Relation.ReflTransGen (StepRel db) pkg p ∧ pkg.name ∈ p.required_by ∧
    ∃ q, dbPkg db pkg.name = some q

/-- Record `q` is fully expanded into `names`: every name in its
`required_by` list whose lookup succeeds is among `names`. -/
def SuccIn (db : List PkgR) (q : PkgR) (names : List String) : Prop :=
  ∀ m ∈ q.required_by, (∃ p', dbPkg db m = some p') → m ∈ names

/-- Loop invariant of the traversal: every accumulated item looks up to
a record that either still awaits expansion in the queue or has already
been fully expanded into the accumulated names. -/
def ItemInv (db : List PkgR) (queue : List PkgR) (acc : List ReqByItem) : Prop :=
  ∀ r ∈ acc, ∃ q, dbPkg db (itemName r) = some q ∧
    (q ∈ queue ∨ SuccIn db q (accNames acc))

/-- Item `r` was discovered from some record reachable from `pkg`: its
name occurs in the `required_by` list of a reachable record and looks up
successfully. -/
def ReachedFrom (db : List PkgR) (pkg : PkgR) (r : ReqByItem) : Prop :=
  ∃ p, Relation.ReflTransGen (StepRel db) pkg p ∧ itemName r ∈ p.required_by ∧
    ∃ q, dbPkg db (itemName r) = some q

/-- Whether a `list_packages` outcome is an `InvalidRequest` error. -/
def resultIsInvalidRequest : Option (Except ProgramError (List (List Nat))) → Bool
  | some (Except.error (ProgramError.invalidRequest _)) => true
  | _ => false

/-! ## Helper lemmas -/

theorem splitOnceColon_of_not_mem {l : List Char} (h : ':' ∉ l) :
    splitOnceColon l = none := by
  induction l with
  | nil => rfl
  | cons c cs ih =>
    have hc : ¬ c = ':' := by
      intro hc
      exact h (hc ▸ List.mem_cons_self c cs)
    have hcs : ':' ∉ cs := fun hm => h (List.mem_cons_of_mem c hm)
    simp [splitOnceColon, hc, ih hcs]

theorem splitOnceColon_append {pre : List Char} (post : List Char) (h : ':' ∉ pre) :
    splitOnceColon (pre ++ ':' :: post) = some (pre, post) := by
  induction pre with
  | nil => simp [splitOnceColon]
  | cons c cs ih =>
    have hc : ¬ c = ':' := by
      intro hc
      exact h (hc ▸ List.mem_cons_self c cs)
    have hcs : ':' ∉ cs := fun hm => h (List.mem_cons_of_mem c hm)
    simp [splitOnceColon, hc, ih hcs]

theorem displayB_eq_flatten (ops : List FormatOp) (pkg : PkgR) :
    displayB ops pkg = (ops.map (renderOp pkg)).flatten := by
  have key : ∀ (l : List FormatOp) (out : List Nat),
      List.foldl
        (fun output part =>
          match part with
          | FormatOp.text s => output ++ s
          | FormatOp.name => output ++ utf8Bytes pkg.name
          | FormatOp.summary =>
            output ++ (match pkg.desc with
              | some d => utf8Bytes d
              | none => utf8Bytes "")
          | FormatOp.reason =>
            match pkg.reason with
            | PackageReason.explicit => output ++ utf8Bytes "Explicit"
            | PackageReason.depend => output ++ utf8Bytes "Depend"
          | FormatOp.version => output ++ utf8Bytes pkg.version)
        out l = out ++ (l.map (renderOp pkg)).flatten := by
    intro l
    induction l with
    | nil => intro out; simp
    | cons op t ih =>
      intro out
      rw [List.foldl_cons, ih]
      cases op with
      | text s => simp [renderOp]
      | name => simp [renderOp]
      | summary => cases hd : pkg.desc <;> simp [renderOp, hd]
      | reason => cases hr : pkg.reason <;> simp [renderOp, hr]
      | version => simp [renderOp]
  simpa [displayB] using key ops []

/-! ## Claim theorems -/

/-- C4: `Query::parse` is total and splits the raw string at the first
colon only: with no colon it returns the whole string as a package name;
with prefix exactly `package` it returns the remainder (unmodified, even
when it contains further colons); with a prefix that differs from its own
trimmed form it returns `SyntaxError`; otherwise `InvalidProperty` with
the prefix.  The four instances of the claim are included. -/
theorem query_parse_spec :
    (∀ raw : String, ':' ∉ raw.data →
      Query.parse raw = Except.ok (Query.packageName raw)) ∧
    (∀ (raw : String) (pre post : List Char), raw.data = pre ++ ':' :: post →
      ':' ∉ pre → pre = "package".data →
      Query.parse raw = Except.ok (Query.packageName (String.mk post))) ∧
    (∀ (raw : String) (pre post : List Char), raw.data = pre ++ ':' :: post →
      ':' ∉ pre → rustTrim pre ≠ pre →
      Query.parse raw = Except.error ParseError.syntaxError) ∧
    (∀ (raw : String) (pre post : List Char), raw.data = pre ++ ':' :: post →
      ':' ∉ pre → pre ≠ "package".data → rustTrim pre = pre →
      Query.parse raw = Except.error (ParseError.invalidProperty (String.mk pre))) ∧
    Query.parse "package:foo" = Except.ok (Query.packageName "foo") ∧
    Query.parse " bad :val" = Except.error ParseError.syntaxError ∧
    Query.parse "unknown:val" = Except.error (ParseError.invalidProperty "unknown") ∧
    Query.parse "plainname" = Except.ok (Query.packageName "plainname") := by
  refine ⟨?_, ?_, ?_, ?_, rfl, rfl, rfl, rfl⟩
  · intro raw h
    simp [Query.parse, splitOnceColon_of_not_mem h]
  · intro raw pre post hdata hmem hpre
    subst hpre
    unfold Query.parse
    rw [hdata, splitOnceColon_append post hmem]
    simp
  · intro raw pre post hdata hmem htrim
    have hpre : pre ≠ "package".data := by
      intro h
      exact htrim (h ▸ (by decide : rustTrim "package".data = "package".data))
    simp [Query.parse, hdata, splitOnceColon_append post hmem, hpre, htrim]
  · intro raw pre post hdata hmem hpre htrim
    simp [Query.parse, hdata, splitOnceColon_append post hmem, hpre, htrim]

/-- Witness for `query_parse_spec`: each hypothesis discharged at a
concrete input. -/
theorem query_parse_spec_witness :
    Query.parse "plain" = Except.ok (Query.packageName "plain") ∧
    Query.parse "package:a:b" = Except.ok (Query.packageName "a:b") ∧
    Query.parse " x:v" = Except.error ParseError.syntaxError ∧
    Query.parse "zz:v" = Except.error (ParseError.invalidProperty "zz") := by
  refine ⟨query_parse_spec.1 "plain" (by decide),
    query_parse_spec.2.1 "package:a:b" "package".data "a:b".data (by decide) (by decide) rfl,
    query_parse_spec.2.2.1 " x:v" " x".data "v".data (by decide) (by decide) (by decide),
    query_parse_spec.2.2.2.1 "zz:v" "zz".data "v".data (by decide) (by decide) (by decide)
      (by decide)⟩

/-- C5: `ReasonSelector::new` maps the flag pairs as specified (with
`(false,false)` and `(true,true)` both giving `Both`, hence identical
behaviour); `filter` passes everything through under `Both` and only the
matching reason otherwise; `test` is always true under `Both` and
otherwise compares the selector's polarity with the item's own
`is_explicit` classification. -/
theorem reason_selector_spec :
    (ReasonSelector.new true false = ReasonSelector.explicit ∧
     ReasonSelector.new false true = ReasonSelector.depend ∧
     ReasonSelector.new false false = ReasonSelector.both ∧
     ReasonSelector.new true true = ReasonSelector.both) ∧
    (∀ r, ReasonSelector.both.filter r = some r) ∧
    (∀ r, ReasonSelector.explicit.filter r =
      if r = PackageReason.explicit then some r else none) ∧
    (∀ r, ReasonSelector.depend.filter r =
      if r = PackageReason.depend then some r else none) ∧
    (∀ it, ReasonSelector.both.test it = true) ∧
    (∀ it, ReasonSelector.explicit.test it = it.is_explicit) ∧
    (∀ it, ReasonSelector.depend.test it = !it.is_explicit) := by
  refine ⟨⟨rfl, rfl, rfl, rfl⟩, ?_, ?_, ?_, ?_, ?_, ?_⟩ <;> intro x <;> cases x <;> rfl

/-- C6: `display` renders the compiled ops in sequence (the output is the
concatenation of the per-op renderings); a literal emits its stored
bytes, `Name` the record's name, `Summary` the description or the empty
string, `Reason` exactly `Explicit` or `Depend`, `Version` the version
string; and the two concrete instances: `%n-%v` on
`{name: foo, version: 1.0}` renders `foo-1.0`, and `%%` renders as the
single character `%`. -/
theorem display_spec :
    (∀ ops pkg, displayB ops pkg = (ops.map (renderOp pkg)).flatten) ∧
    (∀ pkg s, renderOp pkg (FormatOp.text s) = s) ∧
    (∀ pkg, renderOp pkg FormatOp.name = utf8Bytes pkg.name) ∧
    (∀ pkg d, pkg.desc = some d → renderOp pkg FormatOp.summary = utf8Bytes d) ∧
    (∀ pkg, pkg.desc = none → renderOp pkg FormatOp.summary = utf8Bytes "") ∧
    (∀ pkg, pkg.reason = PackageReason.explicit →
      renderOp pkg FormatOp.reason = utf8Bytes "Explicit") ∧
    (∀ pkg, pkg.reason = PackageReason.depend →
      renderOp pkg FormatOp.reason = utf8Bytes "Depend") ∧
    (∀ pkg, renderOp pkg FormatOp.version = utf8Bytes pkg.version) ∧
    (∃ ops, compileB (utf8Bytes "%n-%v") = COutcome.ok ops ∧
      displayB ops fooPkg = utf8Bytes "foo-1.0") ∧
    (∃ ops, compileB (utf8Bytes "%%") = COutcome.ok ops ∧
      ∀ pkg, displayB ops pkg = utf8Bytes "%") := by
  refine ⟨displayB_eq_flatten, fun pkg s => rfl, fun pkg => rfl, ?_, ?_, ?_, ?_,
    fun pkg => rfl, ?_, ?_⟩
  · intro pkg d hd
    simp [renderOp, hd]
  · intro pkg hd
    simp [renderOp, hd]
  · intro pkg hr
    simp [renderOp, hr]
  · intro pkg hr
    simp [renderOp, hr]
  · exact ⟨[FormatOp.name, FormatOp.text [45], FormatOp.version], by decide, by decide⟩
  · exact ⟨[FormatOp.text [37]], by decide, fun pkg => rfl⟩

/-- Witness for `display_spec`: the hypotheses about the description and
reason fields discharged on concrete records. -/
theorem display_spec_witness :
    renderOp fooPkg FormatOp.summary = utf8Bytes "a summary" ∧
    renderOp realPkg FormatOp.summary = utf8Bytes "" ∧
    renderOp realPkg FormatOp.reason = utf8Bytes "Explicit" ∧
    renderOp fooPkg FormatOp.reason = utf8Bytes "Depend" :=
  ⟨display_spec.2.2.2.1 fooPkg "a summary" rfl,
   display_spec.2.2.2.2.1 realPkg rfl,
   display_spec.2.2.2.2.2.1 realPkg rfl,
   display_spec.2.2.2.2.2.2.1 fooPkg rfl⟩

/-! ## Termination of the required-by traversal -/

theorem itemName_reqItemOf (reason : PackageReason) (n : String) :
    itemName (reqItemOf reason n) = n := by
  cases reason <;> rfl

theorem dbPkg_some_name {db : List PkgR} {n : String} {p : PkgR}
    (h : dbPkg db n = some p) : p.name = n ∧ p ∈ db := by
  have hmem := List.mem_of_find?_eq_some h
  have hpred := List.find?_some h
  exact ⟨by simpa using hpred, hmem⟩

theorem dbPkg_mem_names {db : List PkgR} {n : String} {p : PkgR}
    (h : dbPkg db n = some p) : n ∈ dbNames db := by
  obtain ⟨hname, hmem⟩ := dbPkg_some_name h
  unfold dbNames
  rw [List.mem_dedup]
  exact List.mem_map.mpr ⟨p, hmem, hname⟩

theorem filter_length_mono {α : Type} {p q : α → Bool}
    (h : ∀ a, q a = true → p a = true) :
    ∀ l : List α, (l.filter q).length ≤ (l.filter p).length := by
  intro l
  induction l with
  | nil => simp
  | cons a t ih =>
    by_cases hq : q a = true
    · rw [List.filter_cons_of_pos hq, List.filter_cons_of_pos (h a hq)]
      simpa using ih
    · rw [List.filter_cons_of_neg (by simpa using hq)]
      by_cases hp : p a = true
      · rw [List.filter_cons_of_pos hp]
        exact le_trans ih (by simp)
      · rw [List.filter_cons_of_neg (by simpa using hp)]
        exact ih

theorem filter_length_lt {α : Type} {p q : α → Bool}
    (h : ∀ a, q a = true → p a = true) {l : List α} {a : α}
    (ha : a ∈ l) (hpa : p a = true) (hqa : q a = false) :
    (l.filter q).length < (l.filter p).length := by
  induction l with
  | nil => cases ha
  | cons b t ih =>
    rcases List.mem_cons.mp ha with rfl | hat
    · rw [List.filter_cons_of_pos hpa, List.filter_cons_of_neg (by simp [hqa])]
      exact Nat.lt_succ_of_le (filter_length_mono h t)
    · by_cases hq : q b = true
      · rw [List.filter_cons_of_pos hq, List.filter_cons_of_pos (h b hq)]
        simpa using ih hat
      · rw [List.filter_cons_of_neg (by simpa using hq)]
        by_cases hp : p b = true
        · rw [List.filter_cons_of_pos hp]
          exact Nat.lt_succ_of_lt (ih hat)
        · rw [List.filter_cons_of_neg (by simpa using hp)]
          exact ih hat

theorem stepName_eq_or (db : List PkgR) (acc : List ReqByItem) (q : List PkgR)
    (n : String) :
    stepName db (acc, q) n = (acc, q) ∨
    ∃ p, dbPkg db n = some p ∧ reqItemOf p.reason n ∉ acc ∧
      stepName db (acc, q) n = (acc ++ [reqItemOf p.reason n], q ++ [p]) := by
  unfold stepName
  cases hl : dbPkg db n with
  | none => exact Or.inl rfl
  | some p =>
    by_cases hmem : reqItemOf p.reason n ∈ acc
    · exact Or.inl (by simp [hmem])
    · exact Or.inr ⟨p, rfl, hmem, by simp [hmem]⟩

theorem accOk_append (db : List PkgR) {acc : List ReqByItem} (h : accOk db acc)
    {p : PkgR} {n : String} (hl : dbPkg db n = some p) :
    accOk db (acc ++ [reqItemOf p.reason n]) := by
  intro r hr
  rcases List.mem_append.mp hr with h1 | h1
  · exact h r h1
  · have hr' : r = reqItemOf p.reason n := by simpa using h1
    subst hr'
    exact ⟨p, by rw [itemName_reqItemOf]; exact hl, by rw [itemName_reqItemOf]⟩

theorem missingCount_append_lt (db : List PkgR) {acc : List ReqByItem}
    {p : PkgR} {n : String} (hacc : accOk db acc) (hl : dbPkg db n = some p)
    (hnm : reqItemOf p.reason n ∉ acc) :
    missingCount db (acc ++ [reqItemOf p.reason n]) < missingCount db acc := by
  unfold missingCount
  refine filter_length_lt ?_ (dbPkg_mem_names hl) ?_ ?_
  · intro m hm
    simp only [Bool.not_eq_true', List.any_eq_false] at hm ⊢
    intro r hr
    exact hm r (List.mem_append.mpr (Or.inl hr))
  · show (!(acc.any fun r => itemName r == n)) = true
    cases hb : acc.any fun r => itemName r == n with
    | false => rfl
    | true =>
      exfalso
      obtain ⟨r, hr, hname⟩ := List.any_eq_true.mp hb
      have hname' : itemName r = n := by simpa using hname
      obtain ⟨pr, hpr, hreq⟩ := hacc r hr
      rw [hname'] at hpr hreq
      rw [hl] at hpr
      cases hpr
      exact hnm (hreq ▸ hr)
  · show (!(List.any (acc ++ [reqItemOf p.reason n]) fun r => itemName r == n)) = false
    have hany : List.any (acc ++ [reqItemOf p.reason n]) (fun r => itemName r == n) = true :=
      List.any_eq_true.mpr ⟨reqItemOf p.reason n, List.mem_append.mpr (Or.inr (by simp)),
        by simp [itemName_reqItemOf]⟩
    rw [hany]
    rfl

theorem foldl_stepName_bound (db : List PkgR) (names : List String) :
    ∀ (acc : List ReqByItem) (q : List PkgR), accOk db acc →
      accOk db (names.foldl (stepName db) (acc, q)).1 ∧
      2 * missingCount db (names.foldl (stepName db) (acc, q)).1 +
        (names.foldl (stepName db) (acc, q)).2.length ≤
        2 * missingCount db acc + q.length := by
  induction names with
  | nil =>
    intro acc q h
    exact ⟨h, le_refl _⟩
  | cons n ns ih =>
    intro acc q h
    rw [List.foldl_cons]
    rcases stepName_eq_or db acc q n with heq | ⟨p, hl, hnm, heq⟩
    · rw [heq]
      exact ih acc q h
    · rw [heq]
      have hacc' := accOk_append db h hl
      have hmiss := missingCount_append_lt db h hl hnm
      obtain ⟨h1, h2⟩ := ih _ _ hacc'
      refine ⟨h1, le_trans h2 ?_⟩
      simp only [List.length_append, List.length_cons, List.length_nil]
      omega

theorem bfsLoop_isSome (db : List PkgR) :
    ∀ (fuel : Nat) (queue : List PkgR) (acc : List ReqByItem), accOk db acc →
      2 * missingCount db acc + queue.length ≤ fuel →
      ∃ l, bfsLoop db fuel queue acc = some l := by
  intro fuel
  induction fuel with
  | zero =>
    intro queue acc hacc hb
    have : queue = [] := by
      cases queue with
      | nil => rfl
      | cons a t => simp at hb
    subst this
    exact ⟨acc, rfl⟩
  | succ fuel ih =>
    intro queue acc hacc hb
    cases queue with
    | nil => exact ⟨acc, rfl⟩
    | cons next qs =>
      obtain ⟨h1, h2⟩ := foldl_stepName_bound db next.required_by acc qs hacc
      have hb' : 2 * missingCount db (next.required_by.foldl (stepName db) (acc, qs)).1 +
          (next.required_by.foldl (stepName db) (acc, qs)).2.length ≤ fuel := by
        simp only [List.length_cons] at hb
        omega
      obtain ⟨l, hl⟩ := ih _ _ h1 hb'
      exact ⟨l, by simpa [bfsLoop] using hl⟩

theorem missingCount_nil_le (db : List PkgR) : missingCount db [] ≤ db.length := by
  unfold missingCount
  calc ((dbNames db).filter _).length ≤ (dbNames db).length := List.length_filter_le _ _
    _ ≤ (db.map (fun p => p.name)).length := (List.dedup_sublist _).length_le
    _ = db.length := List.length_map _ _

/-- The traversal of `find_required_by` always completes on the fuel
`requiredByFuel db`: the raw accumulated list exists for every database,
seed record and selector. -/
theorem find_required_by_total (db : List PkgR) (pkg : PkgR) (sel : ReasonSelector) :
    ∃ l, find_required_by db pkg sel = some l := by
  have hb : 2 * missingCount db [] + [pkg].length ≤ requiredByFuel db := by
    have := missingCount_nil_le db
    simp only [List.length_cons, List.length_nil, requiredByFuel]
    omega
  obtain ⟨l, hl⟩ := bfsLoop_isSome db (requiredByFuel db) [pkg] [] (by intro r hr; cases hr) hb
  exact ⟨l.filter (fun r => ReasonSelector.test sel r), by simp [find_required_by, hl]⟩

/-- C1: for every (finite) package database and every target record,
`find_required_by` terminates — the traversal completes on its fuel for
every database, seed and selector — and in the two-package cyclic
database where `A` is required by `B` and `B` by `A`, the call on `A`
returns a list in which each of the names `A` and `B` appears at most
once. -/
theorem find_required_by_terminates :
    (∀ (db : List PkgR) (pkg : PkgR) (sel : ReasonSelector),
      ∃ l, find_required_by db pkg sel = some l) ∧
    (∃ l, find_required_by dbAB pkgA ReasonSelector.both = some l ∧
      (accNames l).count "A" ≤ 1 ∧ (accNames l).count "B" ≤ 1) := by
  refine ⟨find_required_by_total,
    ⟨[ReqByItem.depend "B", ReqByItem.explicit "A"], by decide, by decide, by decide⟩⟩

/-- C8: the list returned by `find_required_by` is the full
discovery-ordered accumulated list of the traversal, filtered at the end
by `ReasonSelector::test` with order preserved; the traversal itself
(and hence the accumulated list, obtained with the unrestrictive `Both`
selector) does not depend on the selector, which only prunes the final
output. -/
theorem find_required_by_filters_last :
    ∀ (db : List PkgR) (pkg : PkgR) (sel : ReasonSelector),
      ∃ full, find_required_by db pkg ReasonSelector.both = some full ∧
        find_required_by db pkg sel = some (full.filter fun r => sel.test r) := by
  intro db pkg sel
  have hb : 2 * missingCount db [] + [pkg].length ≤ requiredByFuel db := by
    have := missingCount_nil_le db
    simp only [List.length_cons, List.length_nil, requiredByFuel]
    omega
  obtain ⟨l, hl⟩ := bfsLoop_isSome db (requiredByFuel db) [pkg] [] (by intro r hr; cases hr) hb
  have hboth : ∀ r : ReqByItem, ReasonSelector.both.test r = true := fun r => rfl
  exact ⟨l, by simp [find_required_by, hl, hboth], by simp [find_required_by, hl]⟩

/-! ## Orchestrator lemmas -/

theorem sequenceParse_cons (x : String) (l : List String) :
    sequenceParse (x :: l) =
      match Query.parse x with
      | Except.error e => Except.error e
      | Except.ok q =>
        match sequenceParse l with
        | Except.error e => Except.error e
        | Except.ok qs => Except.ok (q :: qs) := rfl

theorem sequenceParse_append (xs ys : List String) :
    sequenceParse (xs ++ ys) =
      match sequenceParse xs with
      | Except.error e => Except.error e
      | Except.ok qs =>
        match sequenceParse ys with
        | Except.error e => Except.error e
        | Except.ok qs' => Except.ok (qs ++ qs') := by
  induction xs with
  | nil =>
    cases h : sequenceParse ys <;> simp [sequenceParse, h]
  | cons x t ih =>
    rw [List.cons_append, sequenceParse_cons, sequenceParse_cons, ih]
    cases hp : Query.parse x with
    | error e => rfl
    | ok q =>
      cases ht : sequenceParse t with
      | error e => rfl
      | ok qs =>
        cases hy : sequenceParse ys with
        | error e => rfl
        | ok b => simp

theorem sequenceParse_length {l : List String} {qs : List Query}
    (h : sequenceParse l = Except.ok qs) : qs.length = l.length := by
  induction l generalizing qs with
  | nil =>
    cases h
    rfl
  | cons x t ih =>
    unfold sequenceParse at h
    cases hp : Query.parse x with
    | error e => rw [hp] at h; cases h
    | ok q =>
      rw [hp] at h
      cases ht : sequenceParse t with
      | error e => rw [ht] at h; cases h
      | ok qs' =>
        rw [ht] at h
        cases h
        simp [ih ht]

/-- C3 as the code has it (amended): with `required_by` set and no
queries, whenever the supplied format template (if any) compiles, the
call fails with the `InvalidRequest` error, and the result does not
depend on the database at all (no enumeration, no lookup). -/
theorem list_packages_required_by_no_queries :
    ∀ (db db' : List PkgR) (lo : ListOptions) (co : CommonOptions),
      lo.queries = [] → lo.required_by = true →
      (co.format = none ∨
        ∃ f ops, co.format = some f ∧ compileB (utf8Bytes f) = COutcome.ok ops) →
      list_packages db lo co = some (Except.error (ProgramError.invalidRequest
        "you cannot use --required-by without specifying packages")) ∧
      list_packages db lo co = list_packages db' lo co := by
  intro db db' lo co hq hrb hfmt
  have key : ∀ d : List PkgR,
      list_packages d lo co = some (Except.error (ProgramError.invalidRequest
        "you cannot use --required-by without specifying packages")) := by
    intro d
    rcases hfmt with hnone | ⟨f, ops, hsome, hok⟩
    · simp [list_packages, hnone, hq, hrb]
    · simp [list_packages, hsome, hok, hq, hrb]
  exact ⟨key db, (key db).trans (key db').symm⟩

/-- Witness for `list_packages_required_by_no_queries`. -/
theorem list_packages_required_by_no_queries_witness :
    list_packages [realPkg] ⟨[], false, false, true⟩ ⟨false, false, none⟩ =
      some (Except.error (ProgramError.invalidRequest
        "you cannot use --required-by without specifying packages")) :=
  (list_packages_required_by_no_queries [realPkg] [] ⟨[], false, false, true⟩
    ⟨false, false, none⟩ rfl rfl (Or.inl rfl)).1

/-- Counterexample to C3 as stated: with `required_by` set, no queries
and the non-compiling template `%x`, the call fails with `InvalidFormat`,
not `InvalidRequest` (the template is compiled before the empty-query
check). -/
theorem list_packages_required_by_no_queries_cex :
    resultIsInvalidRequest
      (list_packages [] ⟨[], false, false, true⟩ ⟨false, false, some "%x"⟩) = false ∧
    list_packages [] ⟨[], false, false, true⟩ ⟨false, false, some "%x"⟩ =
      some (Except.error (ProgramError.invalidFormat "%x")) :=
  ⟨rfl, rfl⟩

theorem list_packages_eq_of_parse_error (db : List PkgR) (e d rb : Bool)
    (co : CommonOptions) (q1 q2 : List String) (pe : ParseError)
    (h1 : sequenceParse q1 = Except.error pe)
    (h2 : sequenceParse q2 = Except.error pe) :
    list_packages db ⟨q1, e, d, rb⟩ co = list_packages db ⟨q2, e, d, rb⟩ co := by
  have hq1 : q1 ≠ [] := by
    intro h
    subst h
    cases h1
  have hq2 : q2 ≠ [] := by
    intro h
    subst h
    cases h2
  cases hf : co.format with
  | none =>
    simp [list_packages, hf, h1, h2, List.length_eq_zero, hq1, hq2]
  | some f =>
    cases hcb : compileB (utf8Bytes f) with
    | panicked => simp [list_packages, hf, hcb]
    | failed => simp [list_packages, hf, hcb]
    | ok ops =>
      simp [list_packages, hf, hcb, h1, h2, List.length_eq_zero, hq1, hq2]

theorem list_packages_eq_of_same_resolution (db : List PkgR) (e d rb : Bool)
    (co : CommonOptions) (q1 q2 : List String) (A B : List Query)
    (h1 : sequenceParse q1 = Except.ok A) (h2 : sequenceParse q2 = Except.ok B)
    (hA : A ≠ []) (hB : B ≠ [])
    (hres : A.filterMap (fun q => match q with | Query.packageName n => dbPkg db n) =
      B.filterMap (fun q => match q with | Query.packageName n => dbPkg db n)) :
    list_packages db ⟨q1, e, d, rb⟩ co = list_packages db ⟨q2, e, d, rb⟩ co := by
  have hq1 : q1 ≠ [] := by
    intro h
    subst h
    cases h1
    exact hA rfl
  have hq2 : q2 ≠ [] := by
    intro h
    subst h
    cases h2
    exact hB rfl
  cases hf : co.format with
  | none =>
    simp only [list_packages, hf]
    simp only [h1, h2]
    simp [List.length_eq_zero, hq1, hq2, List.isEmpty_iff, hA, hB, hres]
  | some f =>
    cases hcb : compileB (utf8Bytes f) with
    | panicked => simp [list_packages, hf, hcb]
    | failed => simp [list_packages, hf, hcb]
    | ok ops =>
      simp only [list_packages, hf, hcb]
      simp only [h1, h2]
      simp [List.length_eq_zero, hq1, hq2, List.isEmpty_iff, hA, hB, hres]

/-- C7: with a non-empty query list, a parsed query name that matches no
installed package is silently dropped — removing such a ghost query from
the input does not change the call's outcome, as long as at least one
other query remains — and when every query fails to match (the resolved
set is empty) the call fails with `NoPackagesFound`.  The two instances
of the claim are included. -/
theorem list_packages_unmatched_queries :
    (∀ (db : List PkgR) (lo : ListOptions) (co : CommonOptions) (queries : List Query),
      lo.queries ≠ [] → sequenceParse lo.queries = Except.ok queries →
      (co.format = none ∨
        ∃ f ops, co.format = some f ∧ compileB (utf8Bytes f) = COutcome.ok ops) →
      queries.filterMap (fun q => match q with | Query.packageName n => dbPkg db n) = [] →
      list_packages db lo co = some (Except.error ProgramError.noPackagesFound)) ∧
    (∀ (db : List PkgR) (qs1 qs2 : List String) (g gname : String) (e d rb : Bool)
      (co : CommonOptions),
      Query.parse g = Except.ok (Query.packageName gname) → dbPkg db gname = none →
      qs1 ++ qs2 ≠ [] →
      list_packages db ⟨qs1 ++ g :: qs2, e, d, rb⟩ co =
        list_packages db ⟨qs1 ++ qs2, e, d, rb⟩ co) ∧
    list_packages [realPkg] ⟨["real-pkg", "ghost-pkg"], false, false, false⟩
      ⟨false, false, none⟩ = some (Except.ok [utf8Bytes "real-pkg"]) ∧
    list_packages [realPkg] ⟨["ghost-pkg"], false, false, false⟩ ⟨false, false, none⟩ =
      some (Except.error ProgramError.noPackagesFound) := by
  refine ⟨?_, ?_, rfl, rfl⟩
  · intro db lo co queries hne hseq hfmt hres
    have hqne : queries ≠ [] := by
      intro h
      subst h
      exact hne (List.length_eq_zero.mp (sequenceParse_length hseq).symm)
    rcases hfmt with hnone | ⟨f, ops, hsome, hok⟩
    · simp [list_packages, hnone, hseq, hres, List.length_eq_zero, hne, hqne,
        List.isEmpty_iff]
    · simp [list_packages, hsome, hok, hseq, hres, List.length_eq_zero, hne, hqne,
        List.isEmpty_iff]
  · intro db qs1 qs2 g gname e d rb co hg hlook hne
    cases hs1 : sequenceParse qs1 with
    | error e1 =>
      have hL : sequenceParse (qs1 ++ g :: qs2) = Except.error e1 := by
        rw [sequenceParse_append, hs1]
      have hR : sequenceParse (qs1 ++ qs2) = Except.error e1 := by
        rw [sequenceParse_append, hs1]
      exact list_packages_eq_of_parse_error db e d rb co _ _ e1 hL hR
    | ok a =>
      cases hs2 : sequenceParse qs2 with
      | error e2 =>
        have hL : sequenceParse (qs1 ++ g :: qs2) = Except.error e2 := by
          rw [sequenceParse_append, hs1, sequenceParse_cons, hg, hs2]
        have hR : sequenceParse (qs1 ++ qs2) = Except.error e2 := by
          rw [sequenceParse_append, hs1, hs2]
        exact list_packages_eq_of_parse_error db e d rb co _ _ e2 hL hR
      | ok b =>
        have hL : sequenceParse (qs1 ++ g :: qs2) =
            Except.ok (a ++ Query.packageName gname :: b) := by
          rw [sequenceParse_append, hs1, sequenceParse_cons, hg, hs2]
        have hR : sequenceParse (qs1 ++ qs2) = Except.ok (a ++ b) := by
          rw [sequenceParse_append, hs1, hs2]
        have hlen1 := sequenceParse_length hs1
        have hlen2 := sequenceParse_length hs2
        have hAB : a ++ b ≠ [] := by
          intro h
          obtain ⟨ha, hb⟩ := List.append_eq_nil.mp h
          apply hne
          rw [List.append_eq_nil]
          subst ha
          subst hb
          exact ⟨List.length_eq_zero.mp hlen1.symm, List.length_eq_zero.mp hlen2.symm⟩
        have hres : (a ++ Query.packageName gname :: b).filterMap
              (fun q => match q with | Query.packageName n => dbPkg db n) =
            (a ++ b).filterMap
              (fun q => match q with | Query.packageName n => dbPkg db n) := by
          simp [List.filterMap_append, List.filterMap_cons, hlook]
        exact list_packages_eq_of_same_resolution db e d rb co _ _ _ _ hL hR
          (by simp) hAB hres

/-- Witness for `list_packages_unmatched_queries`: the all-unmatched case
and a ghost-drop instance, with every hypothesis discharged on concrete
inputs. -/
theorem list_packages_unmatched_queries_witness :
    list_packages [realPkg] ⟨["nothere"], false, false, false⟩ ⟨false, false, none⟩ =
      some (Except.error ProgramError.noPackagesFound) ∧
    list_packages [realPkg] ⟨["real-pkg", "ghost-pkg"], false, false, false⟩
        ⟨false, false, none⟩ =
      list_packages [realPkg] ⟨["real-pkg"], false, false, false⟩ ⟨false, false, none⟩ := by
  constructor
  · exact list_packages_unmatched_queries.1 [realPkg] ⟨["nothere"], false, false, false⟩
      ⟨false, false, none⟩ [Query.packageName "nothere"] (by simp) rfl (Or.inl rfl) rfl
  · exact list_packages_unmatched_queries.2.1 [realPkg] ["real-pkg"] [] "ghost-pkg"
      "ghost-pkg" false false false ⟨false, false, none⟩ rfl rfl (by simp)

/-! ## The compiler scanner on ASCII input -/

theorem isBoundaryB_ascii {t : List Nat} (h : asciiB t) {i : Nat} (hi : i ≤ t.length) :
    isBoundaryB t i = true := by
  unfold isBoundaryB
  by_cases h0 : i = 0
  · simp [h0]
  · by_cases hl : i = t.length
    · simp [hl]
    · have hlt : i < t.length := lt_of_le_of_ne hi hl
      have hget : t[i]? = some t[i] := List.getElem?_eq_getElem hlt
      have hmem : t[i] ∈ t := List.getElem_mem hlt
      have hb := h _ hmem
      simp [h0, hl, hget, hb]

theorem compileLoop_needMore_nil (consumed chunk : List Nat) (parts : List FormatOp)
    (hascii : asciiB (consumed ++ chunk)) (hch : chunk ≠ [])
    (hp : parse_token_slice chunk = ParseStatus.needMore) :
    compileLoop consumed chunk parts [] = COutcome.failed := by
  have h1 : isBoundaryB (consumed ++ chunk) consumed.length = true :=
    isBoundaryB_ascii hascii (by simp)
  have h2 : isBoundaryB (consumed ++ chunk) (consumed.length + chunk.length) = true :=
    isBoundaryB_ascii hascii (by simp)
  simp only [compileLoop, h1, h2, hp]
  simp [hch]

theorem compileLoop_needMore_cons (consumed chunk : List Nat) (parts : List FormatOp)
    (b : Nat) (r : List Nat) (hascii : asciiB (consumed ++ chunk ++ b :: r))
    (hp : parse_token_slice chunk = ParseStatus.needMore) :
    compileLoop consumed chunk parts (b :: r) =
      compileLoop consumed (chunk ++ [b]) parts r := by
  have h1 : isBoundaryB (consumed ++ chunk ++ b :: r) consumed.length = true :=
    isBoundaryB_ascii hascii (by simp)
  have h2 : isBoundaryB (consumed ++ chunk ++ b :: r) (consumed.length + chunk.length) = true :=
    isBoundaryB_ascii hascii (by simp [Nat.add_le_add_iff_left, Nat.le_add_right])
  simp only [compileLoop, h1, h2, hp]
  simp

theorem compileLoop_invalid_any (consumed chunk : List Nat) (parts : List FormatOp)
    (rest : List Nat) (hascii : asciiB (consumed ++ chunk ++ rest))
    (hp : parse_token_slice chunk = ParseStatus.invalid) :
    compileLoop consumed chunk parts rest = COutcome.failed := by
  have hch : chunk ≠ [] := by
    intro h
    rw [h] at hp
    cases hp
  cases rest with
  | nil =>
    have h1 : isBoundaryB (consumed ++ chunk) consumed.length = true :=
      isBoundaryB_ascii (by simpa using hascii) (by simp)
    have h2 : isBoundaryB (consumed ++ chunk) (consumed.length + chunk.length) = true :=
      isBoundaryB_ascii (by simpa using hascii) (by simp)
    simp only [compileLoop, h1, h2, hp]
    simp [hch]
  | cons b r =>
    have h1 : isBoundaryB (consumed ++ chunk ++ b :: r) consumed.length = true :=
      isBoundaryB_ascii hascii (by simp)
    have h2 : isBoundaryB (consumed ++ chunk ++ b :: r) (consumed.length + chunk.length) = true :=
      isBoundaryB_ascii hascii (by simp [Nat.add_le_add_iff_left, Nat.le_add_right])
    simp only [compileLoop, h1, h2, hp]
    simp

theorem compileLoop_correct_nil (consumed chunk : List Nat) (parts : List FormatOp)
    (f : FormatOp) (hascii : asciiB (consumed ++ chunk)) (hch : chunk ≠ [])
    (hp : parse_token_slice chunk = ParseStatus.correct f) :
    compileLoop consumed chunk parts [] = COutcome.ok (parts ++ [f]) := by
  have h1 : isBoundaryB (consumed ++ chunk) consumed.length = true :=
    isBoundaryB_ascii hascii (by simp)
  have h2 : isBoundaryB (consumed ++ chunk) (consumed.length + chunk.length) = true :=
    isBoundaryB_ascii hascii (by simp)
  simp only [compileLoop, h1, h2, hp]
  simp [hch]

theorem compileLoop_correct_cons (consumed chunk : List Nat) (parts : List FormatOp)
    (f : FormatOp) (b : Nat) (r : List Nat)
    (hascii : asciiB (consumed ++ chunk ++ b :: r))
    (hp : parse_token_slice chunk = ParseStatus.correct f) :
    compileLoop consumed chunk parts (b :: r) =
      compileLoop (consumed ++ chunk) [b] (parts ++ [f]) r := by
  have h1 : isBoundaryB (consumed ++ chunk ++ b :: r) consumed.length = true :=
    isBoundaryB_ascii hascii (by simp)
  have h2 : isBoundaryB (consumed ++ chunk ++ b :: r) (consumed.length + chunk.length) = true :=
    isBoundaryB_ascii hascii (by simp [Nat.add_le_add_iff_left, Nat.le_add_right])
  simp only [compileLoop, h1, h2, hp]
  simp

theorem asciiB_congr {t u : List Nat} (h : t = u) (ht : asciiB t) : asciiB u := h ▸ ht

theorem pts_single {b : Nat} (hb : b ≠ 37) :
    parse_token_slice [b] = ParseStatus.correct (FormatOp.text [b]) := by
  have hb' : ¬(37 = b) := fun h => hb h.symm
  unfold parse_token_slice
  rw [if_neg (by simp), if_neg (by simp [hb]), if_neg (by simp), if_neg (by simp),
    if_neg (by simp), if_neg (by simp), if_neg (by simp), if_neg (by simp),
    if_neg (by simp [List.isPrefixOf]), if_neg (by simp [List.isPrefixOf, hb'])]

theorem pts_pct_other {c : Nat} (h37 : c ≠ 37) (h110 : c ≠ 110) (h115 : c ≠ 115)
    (h114 : c ≠ 114) (h118 : c ≠ 118) (h123 : c ≠ 123) :
    parse_token_slice [37, c] = ParseStatus.invalid := by
  have h123' : ¬(123 = c) := fun h => h123 h.symm
  unfold parse_token_slice
  rw [if_neg (by simp), if_neg (by simp), if_neg (by simp [h37]), if_neg (by simp [h110]),
    if_neg (by simp [h115]), if_neg (by simp [h114]), if_neg (by simp [h118]),
    if_neg (by simp [h123]), if_neg (by simp [List.isPrefixOf, h123']),
    if_pos (by simp [List.isPrefixOf])]

theorem pts_brace_open (m : List Nat) (x : Nat) (hx : x ≠ 125) :
    parse_token_slice (37 :: 123 :: (m ++ [x])) = ParseStatus.needMore := by
  have hx' : ¬(125 = x) := fun h => hx h.symm
  have hlast : ∀ (y : Nat), 37 :: 123 :: (m ++ [x]) = [37, 123, y, 125] → False := by
    intro y h
    have h' : ((37 :: 123 :: m) ++ [x]).getLast? =
        (([37, 123, y] : List Nat) ++ [125]).getLast? := by
      rw [show (37 :: 123 :: m) ++ [x] = 37 :: 123 :: (m ++ [x]) from rfl, h]
      rfl
    rw [List.getLast?_concat, List.getLast?_concat] at h'
    exact hx (Option.some.inj h')
  have hor : ∀ (y : Nat), ¬(37 :: 123 :: (m ++ [x]) = [37, y] ∨
      37 :: 123 :: (m ++ [x]) = [37, 123, y, 125]) := by
    intro y h
    rcases h with h | h
    · simp at h
    · exact hlast y h
  unfold parse_token_slice
  rw [if_neg (by simp), if_neg (by simp), if_neg (by simp),
    if_neg (hor 110), if_neg (hor 115), if_neg (hor 114), if_neg (hor 118),
    if_neg (by simp), if_pos (by simp [List.isPrefixOf]),
    if_neg (by simp [List.isSuffixOf, List.isPrefixOf, List.reverse_append, hx'])]

theorem pts_brace_close (m : List Nat) (hm : 2 ≤ m.length) :
    parse_token_slice (37 :: 123 :: (m ++ [125])) = ParseStatus.invalid := by
  have hlen : (37 :: 123 :: (m ++ [125])).length = m.length + 3 := by simp
  have hne4 : ∀ (y : Nat), 37 :: 123 :: (m ++ [125]) = [37, 123, y, 125] → False := by
    intro y h
    have := congrArg List.length h
    simp at this
    omega
  have hor : ∀ (y : Nat), ¬(37 :: 123 :: (m ++ [125]) = [37, y] ∨
      37 :: 123 :: (m ++ [125]) = [37, 123, y, 125]) := by
    intro y h
    rcases h with h | h
    · simp at h
    · exact hne4 y h
  unfold parse_token_slice
  rw [if_neg (by simp), if_neg (by simp), if_neg (by simp),
    if_neg (hor 110), if_neg (hor 115), if_neg (hor 114), if_neg (hor 118),
    if_neg (by simp), if_pos (by simp [List.isPrefixOf]),
    if_pos (by simp [List.isSuffixOf, List.isPrefixOf, List.reverse_append])]

theorem pts_brace4_close_bad {d : Nat} (h110 : d ≠ 110) (h115 : d ≠ 115)
    (h114 : d ≠ 114) (h118 : d ≠ 118) :
    parse_token_slice [37, 123, d, 125] = ParseStatus.invalid := by
  unfold parse_token_slice
  rw [if_neg (by simp), if_neg (by simp), if_neg (by simp), if_neg (by simp [h110]),
    if_neg (by simp [h115]), if_neg (by simp [h114]), if_neg (by simp [h118]),
    if_neg (by simp), if_pos (by simp [List.isPrefixOf]),
    if_pos (by simp [List.isSuffixOf, List.isPrefixOf])]

theorem specRunB_lit {b : Nat} (hb : b ≠ 37) (r : List Nat) :
    specRunB (b :: r) = specRunB r := by
  rw [specRunB.eq_def]
  simp [hb]

theorem specRunB_sh {c : Nat} (hc : c = 37 ∨ c = 110 ∨ c = 115 ∨ c = 114 ∨ c = 118)
    (r : List Nat) : specRunB (37 :: c :: r) = specRunB r := by
  rw [specRunB.eq_def]
  simp [hc]

theorem specRunB_pct_other {c : Nat} (h37 : c ≠ 37) (h110 : c ≠ 110) (h115 : c ≠ 115)
    (h114 : c ≠ 114) (h118 : c ≠ 118) (h123 : c ≠ 123) (r : List Nat) :
    specRunB (37 :: c :: r) = false := by
  rw [specRunB.eq_def]
  simp [h37, h110, h115, h114, h118, h123]

theorem specRunB_brace_one (d : Nat) : specRunB [37, 123, d] = false := by
  rw [specRunB.eq_def]
  simp [specRunB]

theorem specRunB_brace_two_ok {d : Nat}
    (hd : d = 110 ∨ d = 115 ∨ d = 114 ∨ d = 118) (r : List Nat) :
    specRunB (37 :: 123 :: d :: 125 :: r) = specRunB r := by
  rw [specRunB.eq_def]
  simp [hd]

theorem specRunB_brace_two_badd {d : Nat} (h110 : d ≠ 110) (h115 : d ≠ 115)
    (h114 : d ≠ 114) (h118 : d ≠ 118) (e : Nat) (r : List Nat) :
    specRunB (37 :: 123 :: d :: e :: r) = false := by
  rw [specRunB.eq_def]
  simp [h110, h115, h114, h118]

theorem specRunB_brace_two_bade {d e : Nat} (he : e ≠ 125) (r : List Nat) :
    specRunB (37 :: 123 :: d :: e :: r) = false := by
  rw [specRunB.eq_def]
  simp [he]

theorem compileLoop_brace_dead :
    ∀ (r consumed m : List Nat) (x : Nat) (parts : List FormatOp),
      asciiB (consumed ++ (37 :: 123 :: (m ++ [x])) ++ r) → m ≠ [] → x ≠ 125 →
      compileLoop consumed (37 :: 123 :: (m ++ [x])) parts r = COutcome.failed := by
  intro r
  induction r with
  | nil =>
    intro consumed m x parts hascii hm hx
    refine compileLoop_needMore_nil consumed _ parts ?_ (by simp) (pts_brace_open m x hx)
    simpa using hascii
  | cons b r' ih =>
    intro consumed m x parts hascii hm hx
    rw [compileLoop_needMore_cons consumed _ parts b r' hascii (pts_brace_open m x hx)]
    by_cases hb : b = 125
    · subst hb
      refine compileLoop_invalid_any consumed _ parts r' (asciiB_congr (by simp) hascii) ?_
      have h2 : 2 ≤ (m ++ [x]).length := by
        cases m with
        | nil => exact absurd rfl hm
        | cons a t => simp
      have := pts_brace_close (m ++ [x]) h2
      simpa using this
    · have := ih consumed (m ++ [x]) b parts (asciiB_congr (by simp) hascii) (by simp) hb
      simpa using this

theorem compileLoop_commit_unit {n : Nat}
    (IH : ∀ (rest consumed : List Nat) (parts : List FormatOp), rest.length ≤ n →
      asciiB (consumed ++ rest) →
      (specRunB rest = true →
        ∃ ops, compileLoop consumed [] parts rest = COutcome.ok (parts ++ ops)) ∧
      (specRunB rest = false → compileLoop consumed [] parts rest = COutcome.failed))
    (chunk : List Nat) (f : FormatOp) (hch : chunk ≠ [])
    (hp : parse_token_slice chunk = ParseStatus.correct f)
    (r' consumed : List Nat) (parts : List FormatOp) (hlen : r'.length ≤ n)
    (hascii : asciiB (consumed ++ chunk ++ r')) :
    (specRunB r' = true →
      ∃ ops, compileLoop consumed chunk parts r' = COutcome.ok (parts ++ ops)) ∧
    (specRunB r' = false → compileLoop consumed chunk parts r' = COutcome.failed) := by
  cases r' with
  | nil =>
    rw [compileLoop_correct_nil consumed chunk parts f (asciiB_congr (by simp) hascii) hch hp]
    constructor
    · intro _
      exact ⟨[f], rfl⟩
    · intro h
      exact nomatch h
  | cons c r'' =>
    rw [compileLoop_correct_cons consumed chunk parts f c r'' hascii hp]
    have hstep := compileLoop_needMore_cons (consumed ++ chunk) [] (parts ++ [f]) c r''
      (asciiB_congr (by simp) hascii) rfl
    simp only [List.nil_append] at hstep
    rw [← hstep]
    obtain ⟨ih1, ih2⟩ := IH (c :: r'') (consumed ++ chunk) (parts ++ [f]) hlen
      (asciiB_congr (by simp) hascii)
    constructor
    · intro hs
      obtain ⟨ops, hops⟩ := ih1 hs
      exact ⟨f :: ops, by rw [hops]; simp⟩
    · exact ih2

theorem compileLoop_spec :
    ∀ (n : Nat) (rest consumed : List Nat) (parts : List FormatOp),
      rest.length ≤ n → asciiB (consumed ++ rest) →
      (specRunB rest = true →
        ∃ ops, compileLoop consumed [] parts rest = COutcome.ok (parts ++ ops)) ∧
      (specRunB rest = false → compileLoop consumed [] parts rest = COutcome.failed) := by
  intro n
  induction n with
  | zero =>
    intro rest consumed parts hlen hascii
    have hnil : rest = [] := List.length_eq_zero.mp (Nat.le_zero.mp hlen)
    subst hnil
    constructor
    · intro _
      exact ⟨[], by simp [compileLoop]⟩
    · intro h
      exact nomatch h
  | succ n ih =>
    intro rest consumed parts hlen hascii
    cases rest with
    | nil =>
      constructor
      · intro _
        exact ⟨[], by simp [compileLoop]⟩
      · intro h
        exact nomatch h
    | cons b r =>
      have hstep0 := compileLoop_needMore_cons consumed [] parts b r
        (asciiB_congr (by simp) hascii) rfl
      simp only [List.nil_append] at hstep0
      rw [hstep0]
      by_cases hb : b = 37
      case neg =>
        have hlen' : r.length ≤ n := by
          simp at hlen
          omega
        rw [specRunB_lit hb]
        exact compileLoop_commit_unit ih [b] (FormatOp.text [b]) (by simp) (pts_single hb)
          r consumed parts hlen' (asciiB_congr (by simp) hascii)
      case pos =>
        subst hb
        cases r with
        | nil =>
          rw [compileLoop_needMore_nil consumed [37] parts (asciiB_congr (by simp) hascii)
            (by simp) rfl]
          exact ⟨fun h => (nomatch h), fun _ => rfl⟩
        | cons c r' =>
          rw [compileLoop_needMore_cons consumed [37] parts c r'
            (asciiB_congr (by simp) hascii) rfl]
          simp only [List.cons_append, List.nil_append]
          by_cases hsh : c = 37 ∨ c = 110 ∨ c = 115 ∨ c = 114 ∨ c = 118
          · have hlen' : r'.length ≤ n := by
              simp at hlen
              omega
            rw [specRunB_sh hsh]
            rcases hsh with rfl | rfl | rfl | rfl | rfl
            · exact compileLoop_commit_unit ih [37, 37] (FormatOp.text [37]) (by simp) rfl
                r' consumed parts hlen' (asciiB_congr (by simp) hascii)
            · exact compileLoop_commit_unit ih [37, 110] FormatOp.name (by simp) rfl
                r' consumed parts hlen' (asciiB_congr (by simp) hascii)
            · exact compileLoop_commit_unit ih [37, 115] FormatOp.summary (by simp) rfl
                r' consumed parts hlen' (asciiB_congr (by simp) hascii)
            · exact compileLoop_commit_unit ih [37, 114] FormatOp.reason (by simp) rfl
                r' consumed parts hlen' (asciiB_congr (by simp) hascii)
            · exact compileLoop_commit_unit ih [37, 118] FormatOp.version (by simp) rfl
                r' consumed parts hlen' (asciiB_congr (by simp) hascii)
          · by_cases hbr : c = 123
            · subst hbr
              cases r' with
              | nil =>
                rw [compileLoop_needMore_nil consumed [37, 123] parts
                  (asciiB_congr (by simp) hascii) (by simp) rfl]
                exact ⟨fun h => (nomatch h), fun _ => rfl⟩
              | cons d r'' =>
                rw [compileLoop_needMore_cons consumed [37, 123] parts d r''
                  (asciiB_congr (by simp) hascii) rfl]
                simp only [List.cons_append, List.nil_append]
                by_cases hd : d = 125
                · subst hd
                  rw [compileLoop_invalid_any consumed [37, 123, 125] parts r''
                    (asciiB_congr (by simp) hascii) rfl]
                  have hspec : specRunB (37 :: 123 :: 125 :: r'') = false := by
                    cases r'' with
                    | nil => rfl
                    | cons e r3 =>
                      exact specRunB_brace_two_badd (by decide) (by decide) (by decide)
                        (by decide) e r3
                  rw [hspec]
                  exact ⟨fun h => (nomatch h), fun _ => rfl⟩
                · cases r'' with
                  | nil =>
                    rw [compileLoop_needMore_nil consumed [37, 123, d] parts
                      (asciiB_congr (by simp) hascii) (by simp) (pts_brace_open [] d hd)]
                    rw [specRunB_brace_one d]
                    exact ⟨fun h => (nomatch h), fun _ => rfl⟩
                  | cons e r''' =>
                    rw [compileLoop_needMore_cons consumed [37, 123, d] parts e r'''
                      (asciiB_congr (by simp) hascii) (pts_brace_open [] d hd)]
                    simp only [List.cons_append, List.nil_append]
                    by_cases he : e = 125
                    · subst he
                      by_cases hdn : d = 110 ∨ d = 115 ∨ d = 114 ∨ d = 118
                      · have hlen' : r'''.length ≤ n := by
                          simp at hlen
                          omega
                        rw [specRunB_brace_two_ok hdn]
                        rcases hdn with rfl | rfl | rfl | rfl
                        · exact compileLoop_commit_unit ih [37, 123, 110, 125] FormatOp.name
                            (by simp) rfl r''' consumed parts hlen'
                            (asciiB_congr (by simp) hascii)
                        · exact compileLoop_commit_unit ih [37, 123, 115, 125] FormatOp.summary
                            (by simp) rfl r''' consumed parts hlen'
                            (asciiB_congr (by simp) hascii)
                        · exact compileLoop_commit_unit ih [37, 123, 114, 125] FormatOp.reason
                            (by simp) rfl r''' consumed parts hlen'
                            (asciiB_congr (by simp) hascii)
                        · exact compileLoop_commit_unit ih [37, 123, 118, 125] FormatOp.version
                            (by simp) rfl r''' consumed parts hlen'
                            (asciiB_congr (by simp) hascii)
                      · simp only [not_or] at hdn
                        obtain ⟨h1, h2, h3, h4⟩ := hdn
                        rw [compileLoop_invalid_any consumed [37, 123, d, 125] parts r'''
                          (asciiB_congr (by simp) hascii) (pts_brace4_close_bad h1 h2 h3 h4)]
                        rw [specRunB_brace_two_badd h1 h2 h3 h4]
                        exact ⟨fun h => (nomatch h), fun _ => rfl⟩
                    · have hdead := compileLoop_brace_dead r''' consumed [d] e parts
                        (asciiB_congr (by simp) hascii) (by simp) he
                      simp only [List.cons_append, List.nil_append] at hdead
                      rw [hdead]
                      rw [specRunB_brace_two_bade he]
                      exact ⟨fun h => (nomatch h), fun _ => rfl⟩
            · simp only [not_or] at hsh
              obtain ⟨h37, h110, h115, h114, h118⟩ := hsh
              rw [compileLoop_invalid_any consumed [37, c] parts r'
                (asciiB_congr (by simp) hascii) (pts_pct_other h37 h110 h115 h114 h118 hbr)]
              rw [specRunB_pct_other h37 h110 h115 h114 h118 hbr]
              exact ⟨fun h => (nomatch h), fun _ => rfl⟩

/-- C2 as the code has it (amended to ASCII templates): for every
template whose bytes are all ASCII, `compile` returns `None` exactly when
the template is not a concatenation of the nine recognized units (i.e. it
contains a `%` that does not complete a recognized shorthand or brace
directive, or an unterminated `%`/`%{...` at end of input), and otherwise
returns `Some` compiled format — in particular no partial format is ever
produced on failure. -/
theorem compile_none_iff_bad_ascii :
    ∀ t : List Nat, asciiB t →
      (compileB t = COutcome.failed ↔ specRunB t = false) ∧
      (specRunB t = true → ∃ ops, compileB t = COutcome.ok ops) := by
  intro t h
  have main := compileLoop_spec t.length t [] [] (le_refl _) (by simpa using h)
  constructor
  · constructor
    · intro hf
      cases hs : specRunB t with
      | false => rfl
      | true =>
        obtain ⟨ops, hops⟩ := main.1 hs
        have : COutcome.failed = COutcome.ok ([] ++ ops) := hf ▸ hops
        cases this
    · intro hs
      exact main.2 hs
  · intro hs
    obtain ⟨ops, hops⟩ := main.1 hs
    exact ⟨[] ++ ops, hops⟩

/-- Witness for `compile_none_iff_bad_ascii`: the hypotheses discharged
on the concrete templates `%x` (invalid) and `%n` (valid). -/
theorem compile_none_iff_bad_ascii_witness :
    compileB (utf8Bytes "%x") = COutcome.failed ∧
    ∃ ops, compileB (utf8Bytes "%n") = COutcome.ok ops :=
  ⟨(compile_none_iff_bad_ascii (utf8Bytes "%x") (by unfold asciiB; decide)).1.mpr (by decide),
   (compile_none_iff_bad_ascii (utf8Bytes "%n") (by unfold asciiB; decide)).2 (by decide)⟩

/-- Counterexample to C2 as stated over every string: the two-byte
template `é` contains no `%` at all (it is a single literal character,
a recognized unit), yet `compile` neither returns `Some` nor `None`:
the scanning loop slices the UTF-8 text at byte offset 1, inside the
character, which is a panic. -/
theorem compile_none_iff_bad_cex :
    specRunB (utf8Bytes "é") = true ∧
    compileB (utf8Bytes "é") = COutcome.panicked := by
  constructor
  · rfl
  · rfl

/-- C9: `compile` is not total on arbitrary strings: on the multi-byte
template `é` the byte-indexed window slice falls inside a character and
the code panics; on ASCII-only templates (where every byte index is a
character boundary) it never panics and always returns `Some` or
`None`. -/
theorem compile_panics_on_multibyte :
    compileB (utf8Bytes "é") = COutcome.panicked ∧
    (∀ t : List Nat, asciiB t → compileB t ≠ COutcome.panicked) := by
  constructor
  · rfl
  · intro t ht hcontra
    have main := compileLoop_spec t.length t [] [] (le_refl _) (by simpa using ht)
    unfold compileB at hcontra
    cases hs : specRunB t with
    | true =>
      obtain ⟨ops, hops⟩ := main.1 hs
      rw [hops] at hcontra
      cases hcontra
    | false =>
      rw [main.2 hs] at hcontra
      cases hcontra

/-- Witness for `compile_panics_on_multibyte`: the ASCII hypothesis
discharged on the concrete template `%n`. -/
theorem compile_panics_on_multibyte_witness :
    asciiB (utf8Bytes "%n") ∧ compileB (utf8Bytes "%n") ≠ COutcome.panicked :=
  ⟨by unfold asciiB; decide,
   compile_panics_on_multibyte.2 (utf8Bytes "%n") (by unfold asciiB; decide)⟩

/-! ## Soundness and completeness of the required-by traversal -/

theorem stepName_some (db : List PkgR) (acc : List ReqByItem) (q : List PkgR) {n : String}
    {p : PkgR} (hl : dbPkg db n = some p) :
    stepName db (acc, q) n =
      if reqItemOf p.reason n ∈ acc then (acc, q)
      else (acc ++ [reqItemOf p.reason n], q ++ [p]) := by
  unfold stepName
  rw [hl]

theorem foldl_stepName_mono (db : List PkgR) (names : List String) :
    ∀ (acc : List ReqByItem) (q : List PkgR),
      (∀ x ∈ acc, x ∈ (names.foldl (stepName db) (acc, q)).1) ∧
      (∀ p ∈ q, p ∈ (names.foldl (stepName db) (acc, q)).2) := by
  induction names with
  | nil =>
    intro acc q
    exact ⟨fun x hx => hx, fun p hp => hp⟩
  | cons nm ns ih =>
    intro acc q
    rw [List.foldl_cons]
    rcases stepName_eq_or db acc q nm with heq | ⟨p, hl, hnm, heq⟩
    · rw [heq]
      exact ih acc q
    · rw [heq]
      obtain ⟨m1, m2⟩ := ih (acc ++ [reqItemOf p.reason nm]) (q ++ [p])
      exact ⟨fun x hx => m1 x (by simp [hx]), fun pp hp => m2 pp (by simp [hp])⟩

theorem foldl_stepName_expands (db : List PkgR) (names : List String) :
    ∀ (acc : List ReqByItem) (q : List PkgR) (m : String), m ∈ names →
      (∃ p', dbPkg db m = some p') →
      m ∈ accNames (names.foldl (stepName db) (acc, q)).1 := by
  induction names with
  | nil =>
    intro acc q m hm _
    cases hm
  | cons nm ns ih =>
    intro acc q m hm hlook
    rw [List.foldl_cons]
    rcases List.mem_cons.mp hm with rfl | hm'
    · obtain ⟨p', hp'⟩ := hlook
      have hstep : m ∈ accNames (stepName db (acc, q) m).1 := by
        rw [stepName_some db acc q hp']
        by_cases hmem : reqItemOf p'.reason m ∈ acc
        · rw [if_pos hmem]
          exact List.mem_map.mpr ⟨reqItemOf p'.reason m, hmem, itemName_reqItemOf _ _⟩
        · rw [if_neg hmem]
          exact List.mem_map.mpr ⟨reqItemOf p'.reason m, by simp, itemName_reqItemOf _ _⟩
      obtain ⟨r, hr, hrn⟩ := List.mem_map.mp hstep
      have hr' := (foldl_stepName_mono db ns (stepName db (acc, q) m).1
        (stepName db (acc, q) m).2).1 r hr
      exact List.mem_map.mpr ⟨r, hr', hrn⟩
    · exact ih (stepName db (acc, q) nm).1 (stepName db (acc, q) nm).2 m hm' hlook

theorem foldl_stepName_new (db : List PkgR) (names : List String) :
    ∀ (acc : List ReqByItem) (q : List PkgR) (r : ReqByItem),
      r ∈ (names.foldl (stepName db) (acc, q)).1 →
      r ∈ acc ∨ ∃ p, dbPkg db (itemName r) = some p ∧
        p ∈ (names.foldl (stepName db) (acc, q)).2 := by
  induction names with
  | nil =>
    intro acc q r hr
    exact Or.inl hr
  | cons nm ns ih =>
    intro acc q r hr
    rw [List.foldl_cons] at hr ⊢
    rcases ih (stepName db (acc, q) nm).1 (stepName db (acc, q) nm).2 r hr with h | ⟨p, hp, hpq⟩
    · rcases stepName_eq_or db acc q nm with heq | ⟨p, hl, hnm, heq⟩
      · rw [heq] at h
        exact Or.inl h
      · rw [heq] at h
        rcases List.mem_append.mp h with h1 | h1
        · exact Or.inl h1
        · have hr' : r = reqItemOf p.reason nm := by simpa using h1
          subst hr'
          refine Or.inr ⟨p, by rw [itemName_reqItemOf]; exact hl, ?_⟩
          have hpq : p ∈ (stepName db (acc, q) nm).2 := by
            rw [heq]
            simp
          exact (foldl_stepName_mono db ns (stepName db (acc, q) nm).1
            (stepName db (acc, q) nm).2).2 p hpq
    · exact Or.inr ⟨p, hp, hpq⟩

theorem foldl_stepName_reach (db : List PkgR) (pkg next : PkgR)
    (hreach : Relation.ReflTransGen (StepRel db) pkg next) :
    ∀ (names : List String), (∀ m ∈ names, m ∈ next.required_by) →
    ∀ (acc : List ReqByItem) (q : List PkgR),
      (∀ p ∈ q, Relation.ReflTransGen (StepRel db) pkg p) →
      (∀ r ∈ acc, ReachedFrom db pkg r) →
      (∀ p ∈ (names.foldl (stepName db) (acc, q)).2,
        Relation.ReflTransGen (StepRel db) pkg p) ∧
      (∀ r ∈ (names.foldl (stepName db) (acc, q)).1, ReachedFrom db pkg r) := by
  intro names
  induction names with
  | nil =>
    intro _ acc q hq hacc
    exact ⟨hq, hacc⟩
  | cons nm ns ih =>
    intro hnames acc q hq hacc
    rw [List.foldl_cons]
    rcases stepName_eq_or db acc q nm with heq | ⟨p, hl, hnm, heq⟩
    · rw [heq]
      exact ih (fun m hm => hnames m (by simp [hm])) acc q hq hacc
    · rw [heq]
      have hnm' : nm ∈ next.required_by := hnames nm (by simp)
      refine ih (fun m hm => hnames m (by simp [hm])) _ _ ?_ ?_
      · intro pp hpp
        rcases List.mem_append.mp hpp with h1 | h1
        · exact hq pp h1
        · have : pp = p := by simpa using h1
          subst this
          exact Relation.ReflTransGen.tail hreach ⟨nm, hnm', hl⟩
      · intro rr hrr
        rcases List.mem_append.mp hrr with h1 | h1
        · exact hacc rr h1
        · have : rr = reqItemOf p.reason nm := by simpa using h1
          subst this
          exact ⟨next, hreach, by rw [itemName_reqItemOf]; exact hnm',
            ⟨p, by rw [itemName_reqItemOf]; exact hl⟩⟩

theorem bfsLoop_sound (db : List PkgR) (pkg : PkgR) :
    ∀ (fuel : Nat) (queue : List PkgR) (acc res : List ReqByItem),
      bfsLoop db fuel queue acc = some res →
      (∀ p ∈ queue, Relation.ReflTransGen (StepRel db) pkg p) →
      (∀ r ∈ acc, ReachedFrom db pkg r) →
      ∀ r ∈ res, ReachedFrom db pkg r := by
  intro fuel
  induction fuel with
  | zero =>
    intro queue acc res hres hq hacc
    cases queue with
    | nil =>
      cases hres
      exact hacc
    | cons a t => cases hres
  | succ n ih =>
    intro queue acc res hres hq hacc
    cases queue with
    | nil =>
      cases hres
      exact hacc
    | cons next qs =>
      simp only [bfsLoop] at hres
      have hnext := hq next (by simp)
      obtain ⟨hq', hacc'⟩ := foldl_stepName_reach db pkg next hnext next.required_by
        (fun m hm => hm) acc qs (fun p hp => hq p (by simp [hp])) hacc
      exact ih _ _ res hres hq' hacc'

theorem bfsLoop_closed (db : List PkgR) :
    ∀ (fuel : Nat) (queue : List PkgR) (acc res : List ReqByItem),
      bfsLoop db fuel queue acc = some res →
      ItemInv db queue acc →
      (∀ x ∈ acc, x ∈ res) ∧
      (∀ p ∈ queue, SuccIn db p (accNames res)) ∧
      (∀ r ∈ res, ∃ q, dbPkg db (itemName r) = some q ∧ SuccIn db q (accNames res)) := by
  intro fuel
  induction fuel with
  | zero =>
    intro queue acc res hres hinv
    cases queue with
    | nil =>
      cases hres
      refine ⟨fun x hx => hx, fun p hp => absurd hp (List.not_mem_nil p), ?_⟩
      intro r hr
      obtain ⟨q, hq, hor⟩ := hinv r hr
      rcases hor with h | h
      · exact absurd h (List.not_mem_nil q)
      · exact ⟨q, hq, h⟩
    | cons a t => cases hres
  | succ n ih =>
    intro queue acc res hres hinv
    cases queue with
    | nil =>
      cases hres
      refine ⟨fun x hx => hx, fun p hp => absurd hp (List.not_mem_nil p), ?_⟩
      intro r hr
      obtain ⟨q, hq, hor⟩ := hinv r hr
      rcases hor with h | h
      · exact absurd h (List.not_mem_nil q)
      · exact ⟨q, hq, h⟩
    | cons next qs =>
      simp only [bfsLoop] at hres
      have hmono := foldl_stepName_mono db next.required_by acc qs
      have hinv' : ItemInv db (next.required_by.foldl (stepName db) (acc, qs)).2
          (next.required_by.foldl (stepName db) (acc, qs)).1 := by
        intro r hr
        rcases foldl_stepName_new db next.required_by acc qs r hr with hold | ⟨p, hp, hpq⟩
        · obtain ⟨q, hq, hor⟩ := hinv r hold
          refine ⟨q, hq, ?_⟩
          rcases hor with hq' | hsucc
          · rcases List.mem_cons.mp hq' with heq | hqs
            · refine Or.inr ?_
              intro m hm hlook
              rw [heq] at hm
              exact foldl_stepName_expands db next.required_by acc qs m hm hlook
            · exact Or.inl (hmono.2 q hqs)
          · refine Or.inr ?_
            intro m hm hlook
            obtain ⟨rr, hrr, hrrn⟩ := List.mem_map.mp (hsucc m hm hlook)
            exact List.mem_map.mpr ⟨rr, hmono.1 rr hrr, hrrn⟩
        · exact ⟨p, hp, Or.inl hpq⟩
      obtain ⟨h1, h2, h3⟩ := ih _ _ res hres hinv'
      refine ⟨fun x hx => h1 x (hmono.1 x hx), ?_, h3⟩
      intro p hp
      rcases List.mem_cons.mp hp with rfl | hpq
      · intro m hm hlook
        obtain ⟨rr, hrr, hrrn⟩ := List.mem_map.mp
          (foldl_stepName_expands db p.required_by acc qs m hm hlook)
        exact List.mem_map.mpr ⟨rr, h1 rr hrr, hrrn⟩
      · exact h2 p (hmono.2 p hpq)

theorem reach_expanded (db : List PkgR) (pkg : PkgR) (res : List ReqByItem)
    (hres : bfsLoop db (requiredByFuel db) [pkg] [] = some res) :
    ∀ p, Relation.ReflTransGen (StepRel db) pkg p → SuccIn db p (accNames res) := by
  obtain ⟨h1, h2, h3⟩ := bfsLoop_closed db (requiredByFuel db) [pkg] [] res hres
    (by intro r hr; cases hr)
  intro p hp
  induction hp with
  | refl => exact h2 pkg (by simp)
  | tail hsteps hstep ihp =>
    obtain ⟨m, hm, hlook⟩ := hstep
    have hmname : m ∈ accNames res := ihp m hm ⟨_, hlook⟩
    obtain ⟨r, hr, hrn⟩ := List.mem_map.mp hmname
    obtain ⟨q, hq, hqs⟩ := h3 r hr
    rw [hrn, hlook] at hq
    cases hq
    exact hqs

/-- C10: the traversal never seeds the result with the target itself —
the target starts only in the queue (the accumulated list starts empty)
— and the target's name appears as an item of its own (unfiltered)
required-by result exactly when some chain of direct-dependent names
starting from the target leads back to the target's own name with a
successful lookup; for an acyclic database the target never appears in
its own result. -/
theorem find_required_by_cycle_iff :
    ∀ (db : List PkgR) (pkg : PkgR) (full : List ReqByItem),
      find_required_by db pkg ReasonSelector.both = some full →
      ((∃ r ∈ full, itemName r = pkg.name) ↔ CycleBack db pkg) := by
  intro db pkg full hfull
  have hb : 2 * missingCount db [] + [pkg].length ≤ requiredByFuel db := by
    have := missingCount_nil_le db
    simp only [List.length_cons, List.length_nil, requiredByFuel]
    omega
  obtain ⟨raw, hraw⟩ := bfsLoop_isSome db (requiredByFuel db) [pkg] []
    (by intro r hr; cases hr) hb
  have hboth : ∀ r : ReqByItem, ReasonSelector.both.test r = true := fun r => rfl
  have hfull' : full = raw := by
    rw [find_required_by, hraw] at hfull
    simp [hboth] at hfull
    exact hfull.symm
  subst hfull'
  constructor
  · rintro ⟨r, hr, hrn⟩
    have hreached := bfsLoop_sound db pkg (requiredByFuel db) [pkg] [] full hraw
      (by
        intro p hp
        have : p = pkg := by simpa using hp
        subst this
        exact Relation.ReflTransGen.refl)
      (by intro r' hr'; cases hr') r hr
    obtain ⟨p, hp, hmem, hlook⟩ := hreached
    exact ⟨p, hp, hrn ▸ hmem, hrn ▸ hlook⟩
  · rintro ⟨p, hp, hmem, q, hlook⟩
    have hsucc := reach_expanded db pkg full hraw p hp
    have hname : pkg.name ∈ accNames full := hsucc pkg.name hmem ⟨q, hlook⟩
    obtain ⟨r, hr, hrn⟩ := List.mem_map.mp hname
    exact ⟨r, hr, hrn⟩

/-- Witness for `find_required_by_cycle_iff`: on the concrete cyclic
two-package database the hypothesis is discharged by evaluation and the
forward direction yields the cycle. -/
theorem find_required_by_cycle_iff_witness : CycleBack dbAB pkgA :=
  (find_required_by_cycle_iff dbAB pkgA [ReqByItem.depend "B", ReqByItem.explicit "A"]
    (by decide)).mp ⟨ReqByItem.explicit "A", by decide, rfl⟩
